import Mathlib

/-!
A shallow embedding of `src/advanced-vector/vector.h`: the raw buffer `RawMemory<T>`
and the container `Vector<T>`, together with proofs about the embedded operations.

A raw buffer is a list of slots; `none` is raw (uninitialized) storage and `some a`
is a live element holding the value `a`.  The stored `capacity_` of `RawMemory` always
equals the length of its allocation in this program, so capacity is modelled as the
length of the slot list, and `buffer_ == nullptr` corresponds to the empty slot list
(`Allocate(0)` returns `nullptr`, and a moved-from `RawMemory` has capacity `0`).

C++ behaviour that cannot complete normally is made explicit:
`CErr.assertFail` models a failing `assert(...)` in the source, and `CErr.ub` models
undefined behaviour (reading, assigning to or destroying a slot that holds no live
object, addressing storage outside the buffer, or an ill-formed iterator range).

Element types are modelled by `ElemOps`: the value produced by value-construction,
what a moved-from object holds afterwards (`moveResidue`), and the two compile-time
traits `std::is_nothrow_move_constructible_v<T>` and `std::is_copy_constructible_v<T>`
consulted by `Vector<T>::MoveElements`.  `size_t` arithmetic is `Nat`; the one place
where unsigned wraparound is reachable (`size_ - 1` in `PopBack` on an empty vector)
is modelled with an explicit `% 2^64`.
-/

set_option autoImplicit false

variable {α : Type}

/-- Abnormal outcome of an embedded operation: a failing `assert` in the source,
or C++ undefined behaviour. -/
inductive CErr : Type
  | assertFail
  | ub
deriving DecidableEq

/-- The value space of `size_t` (64-bit). -/
def USIZE : Nat := 2 ^ 64

/-- Semantics and compile-time traits of the element type `T`:
`defaultVal` is what `T()` value-construction produces, `moveResidue a` is what a
source object holding `a` contains after being moved from, `nothrowMove` is
`std::is_nothrow_move_constructible_v<T>` and `copyConstructible` is
`std::is_copy_constructible_v<T>`. -/
structure ElemOps (α : Type) where
  defaultVal : α
  moveResidue : α → α
  nothrowMove : Bool
  copyConstructible : Bool

/-- `RawMemory<T>`: `capacity_` slots of raw storage.  `slots = []` models
`buffer_ == nullptr` (capacity `0`). -/
structure RawMem (α : Type) where
  slots : List (Option α)
deriving DecidableEq

/-- `RawMemory<T>::Capacity()`. -/
def RawMem.capacity (m : RawMem α) : Nat := m.slots.length

/-- `RawMemory<T>::Allocate(n)` wrapped in the `RawMemory(size_t)` constructor:
`n` raw slots (for `n = 0` no allocation is made and the buffer is `nullptr`). -/
def alloc (n : Nat) : RawMem α := ⟨List.replicate n none⟩

/-- The value of the live element in slot `i`, if any (a model-level observation). -/
def valAt (m : RawMem α) (i : Nat) : Option α := (m.slots[i]?).bind id

/-- Overwrite slot `i` (no-op when `i` is outside the buffer, as `List.set`). -/
def writeSlot (m : RawMem α) (i : Nat) (c : Option α) : RawMem α := ⟨m.slots.set i c⟩

/-- `RawMemory<T>::operator+(offset)`: `assert(offset <= capacity_)`, then the
address `buffer_ + offset`. -/
def addrOf (m : RawMem α) (off : Nat) : Except CErr Nat :=
  if off ≤ m.capacity then .ok off else .error .assertFail

/-- `RawMemory<T>::operator[](index)`: `assert(index < capacity_)` before the slot
is referenced. -/
def idxRef (m : RawMem α) (i : Nat) : Except CErr Unit :=
  if i < m.capacity then .ok () else .error .assertFail

/-- Read the live element in slot `i`; reading outside the buffer or from a slot
with no live object is undefined behaviour. -/
def readAt (m : RawMem α) (i : Nat) : Except CErr α :=
  match m.slots[i]? with
  | some (some a) => .ok a
  | _ => .error .ub

/-- Placement-`new` of the value `a` into slot `i`: constructing outside the buffer
is undefined behaviour. -/
def constructAt (m : RawMem α) (i : Nat) (a : α) : Except CErr (RawMem α) :=
  if i < m.capacity then .ok (writeSlot m i (some a)) else .error .ub

/-- Assignment `slot[i] = a`: assigning through a location that does not hold a live
object is undefined behaviour. -/
def assignAt (m : RawMem α) (i : Nat) (a : α) : Except CErr (RawMem α) :=
  match m.slots[i]? with
  | some (some _) => .ok (writeSlot m i (some a))
  | _ => .error .ub

/-- `std::destroy_at` on slot `i`: destroying a non-live slot or a slot outside the
buffer is undefined behaviour. -/
def destroyAt (m : RawMem α) (i : Nat) : Except CErr (RawMem α) :=
  match m.slots[i]? with
  | some (some _) => .ok (writeSlot m i none)
  | _ => .error .ub

/-- Move out of the live object in slot `i` (`std::move(slot[i])` consumed by a move
constructor or move assignment): yields its value and leaves the residue behind. -/
def moveFrom (E : ElemOps α) (m : RawMem α) (i : Nat) : Except CErr (α × RawMem α) :=
  match m.slots[i]? with
  | some (some a) => .ok (a, writeSlot m i (some (E.moveResidue a)))
  | _ => .error .ub

/-- `moveFrom` at a pointer offset that may lie before the buffer. -/
def moveFromI (E : ElemOps α) (m : RawMem α) (i : Int) : Except CErr (α × RawMem α) :=
  if i < 0 then .error .ub else moveFrom E m i.toNat

/-- `assignAt` at a pointer offset that may lie before the buffer. -/
def assignAtI (m : RawMem α) (i : Int) (a : α) : Except CErr (RawMem α) :=
  if i < 0 then .error .ub else assignAt m i.toNat a

/-- `std::uninitialized_copy_n(src + srcOff, cnt, dst + dstOff)`: copy-construct
`cnt` elements in index order into raw slots of `dst`; the source is not modified. -/
def uninitCopyN (src : RawMem α) (srcOff : Nat) (dst : RawMem α) (dstOff : Nat) :
    Nat → Except CErr (RawMem α)
  | 0 => .ok dst
  | c + 1 => do
    let a ← readAt src srcOff
    let d ← constructAt dst dstOff a
    uninitCopyN src (srcOff + 1) d (dstOff + 1) c

/-- `std::uninitialized_move_n(src + srcOff, cnt, dst + dstOff)`: move-construct
`cnt` elements in index order; each source slot is left holding the move residue. -/
def uninitMoveN (E : ElemOps α) (src : RawMem α) (srcOff : Nat) (dst : RawMem α)
    (dstOff : Nat) : Nat → Except CErr (RawMem α × RawMem α)
  | 0 => .ok (src, dst)
  | c + 1 => do
    let p ← moveFrom E src srcOff
    let d ← constructAt dst dstOff p.1
    uninitMoveN E p.2 (srcOff + 1) d (dstOff + 1) c

/-- `std::destroy_n(m + off, cnt)`: destroy `cnt` live elements in index order. -/
def destroyN (m : RawMem α) (off : Nat) : Nat → Except CErr (RawMem α)
  | 0 => .ok m
  | c + 1 => do
    let m1 ← destroyAt m off
    destroyN m1 (off + 1) c

/-- `std::uninitialized_value_construct_n(m + off, cnt)`. -/
def uninitValueConstructN (E : ElemOps α) (m : RawMem α) (off : Nat) :
    Nat → Except CErr (RawMem α)
  | 0 => .ok m
  | c + 1 => do
    let m1 ← constructAt m off E.defaultVal
    uninitValueConstructN E m1 (off + 1) c

/-- The assignment loop of `std::copy(src + srcOff, src + srcOff + cnt, dst + dstOff)`
(both ranges in distinct buffers, as in the copy-assignment operator). -/
def copyAssignN (src : RawMem α) (srcOff : Nat) (dst : RawMem α) (dstOff : Nat) :
    Nat → Except CErr (RawMem α)
  | 0 => .ok dst
  | c + 1 => do
    let a ← readAt src srcOff
    let d ← assignAt dst dstOff a
    copyAssignN src (srcOff + 1) d (dstOff + 1) c

/-- The loop of `std::move(first, last, dfirst)` within one buffer:
`*dfirst++ = std::move(*first++)`, `cnt` times. -/
def moveForwardN (E : ElemOps α) (m : RawMem α) (first dfirst : Nat) :
    Nat → Except CErr (RawMem α)
  | 0 => .ok m
  | c + 1 => do
    let p ← moveFrom E m first
    let m2 ← assignAt p.2 dfirst p.1
    moveForwardN E m2 (first + 1) (dfirst + 1) c

/-- `std::move(first, last, dfirst)`; a range with `last < first` is ill-formed
(the C++ loop would walk off the buffer), hence undefined behaviour. -/
def stdMove (E : ElemOps α) (m : RawMem α) (first last dfirst : Nat) :
    Except CErr (RawMem α) :=
  if last < first then .error .ub
  else moveForwardN E m first dfirst (last - first)

/-- The loop of `std::move_backward(first, last, dlast)`:
`*(--dlast) = std::move(*(--last))`, `cnt = last - first` times.  Offsets are `Int`
because `begin() + current_pos - 1` in `EmplaceWithoutReallocation` can address the
slot before the buffer. -/
def moveBackwardN (E : ElemOps α) (m : RawMem α) (last dlast : Int) :
    Nat → Except CErr (RawMem α)
  | 0 => .ok m
  | c + 1 => do
    let p ← moveFromI E m (last - 1)
    let m2 ← assignAtI p.2 (dlast - 1) p.1
    moveBackwardN E m2 (last - 1) (dlast - 1) c

/-- `std::move_backward(first, last, dlast)`. -/
def moveBackward (E : ElemOps α) (m : RawMem α) (first last dlast : Int) :
    Except CErr (RawMem α) :=
  moveBackwardN E m last dlast (last - first).toNat

/-- `Vector<T>`: a raw buffer and the live-element count `size_`. -/
structure VectorM (α : Type) where
  data : RawMem α
  size : Nat
deriving DecidableEq

/-- The documented state invariant of `Vector<T>` (§3 of the design):
`size_ ≤ capacity`, slots `[0, size_)` hold live elements, slots `[size_, capacity)`
are raw storage. -/
def wfVec (v : VectorM α) : Prop :=
  v.size ≤ v.data.capacity ∧
  (∀ i, i < v.size → (valAt v.data i).isSome = true) ∧
  (∀ i, i < v.data.capacity → v.size ≤ i → v.data.slots[i]? = some none)

/-- `Vector<T>::MoveElements(data_from_ptr, elements_cnt, new_data_to_ptr)`:
relocate by `uninitialized_move_n` when the element type is nothrow-move-constructible
or not copy-constructible (the `if constexpr` dispatch), otherwise by
`uninitialized_copy_n`; then `destroy_n` the whole source range as a unit.  Yields the
updated (source, destination) buffers. -/
def moveElements (E : ElemOps α) (src : RawMem α) (srcOff cnt : Nat) (dst : RawMem α)
    (dstOff : Nat) : Except CErr (RawMem α × RawMem α) := do
  let p ←
    if E.nothrowMove || !E.copyConstructible then
      uninitMoveN E src srcOff dst dstOff cnt
    else do
      let d ← uninitCopyN src srcOff dst dstOff cnt
      pure (src, d)
  let s2 ← destroyN p.1 srcOff cnt
  pure (s2, p.2)

/-- `Vector<T>::Vector()`: `data_(0)`, `size_(0)`. -/
def vecDefault : VectorM α := ⟨alloc 0, 0⟩

/-- `Vector<T>::Vector(size_t n)`: `data_(n)`, `size_(n)`, then
`uninitialized_value_construct_n(data_.GetAddress(), n)`. -/
def vecSized (E : ElemOps α) (n : Nat) : Except CErr (VectorM α) := do
  let m ← uninitValueConstructN E (alloc n) 0 n
  pure ⟨m, n⟩

/-- `Vector<T>::Vector(const Vector& other)`: `data_(other.size_)`,
`size_(other.size_)`, then `uninitialized_copy_n(other.data_.GetAddress(),
other.Size(), data_.GetAddress())`. -/
def vecCopyCtor (other : VectorM α) : Except CErr (VectorM α) := do
  let m ← uninitCopyN other.data 0 (alloc other.size) 0 other.size
  pure ⟨m, other.size⟩

/-- `Vector<T>::Vector(Vector&& other)`: the init list runs `size_(other.size_)`
(and `data_` is default-constructed), then the body runs
`data_ = std::move(other.data_)`, whose `RawMemory` move-assignment takes `other`'s
handle and nulls `other.data_`.  Nothing resets `other.size_`.  Yields
(the new vector, what `other` is left as). -/
def vecMoveCtor (other : VectorM α) : VectorM α × VectorM α :=
  (⟨other.data, other.size⟩, ⟨⟨[]⟩, other.size⟩)

/-- `Vector<T>::operator=(Vector&& rhs)` for distinct objects:
`data_ = std::exchange(rhs.data_, {})` (so `rhs.data_` becomes the null buffer and
`data_` takes `rhs`'s old handle; the receiver's previous elements are never
destroyed and its previous buffer is not freed by `RawMemory`'s move-assignment,
which only affects leaks), then `size_ = rhs.size_`.  Nothing resets `rhs.size_`.
Yields (the receiver, what `rhs` is left as). -/
def vecMoveAssign (self rhs : VectorM α) : VectorM α × VectorM α :=
  (⟨rhs.data, rhs.size⟩, ⟨⟨[]⟩, rhs.size⟩)

/-- `v = std::move(v)`: `Vector<T>::operator=(Vector&&)` with `this == &rhs`, traced
statement by statement on the single shared object.
`std::exchange(rhs.data_, {})` first move-constructs `old` from `data_` (which nulls
`data_`), then assigns the empty `RawMemory{}` into `data_`, and returns `old`;
the assignment `data_ = old` then re-installs the original handle, and
`size_ = rhs.size_` reads the object's own unchanged size. -/
def vecMoveAssignSelf (v : VectorM α) : VectorM α :=
  let old := v.data
  let dAfterExchange : RawMem α := ⟨[]⟩
  let dFinal := old
  ⟨(fun _ => dFinal) dAfterExchange, v.size⟩

/-- `Vector<T>::operator=(const Vector& rhs)` for distinct objects (`this != &rhs`).
If `rhs.size_ > data_.Capacity()`: `Vector rhs_copy(rhs); Swap(rhs_copy);`
(the receiver becomes the fresh copy; its old state is destroyed with `rhs_copy`).
Otherwise the storage is reused: `std::copy` assigns the first
`min(Size(), rhs.Size())` elements, then the extra source elements are
copy-constructed (`rhs` larger) or the extra receiver elements destroyed
(`rhs` smaller), and `size_ = rhs.Size()`. -/
def vecCopyAssign (self rhs : VectorM α) : Except CErr (VectorM α) :=
  if rhs.size > self.data.capacity then
    vecCopyCtor rhs
  else do
    let m1 ← copyAssignN rhs.data 0 self.data 0 (min self.size rhs.size)
    let m2 ←
      if rhs.size > self.size then
        uninitCopyN rhs.data self.size m1 self.size (rhs.size - self.size)
      else
        destroyN m1 rhs.size (self.size - rhs.size)
    pure ⟨m2, rhs.size⟩

/-- `Vector<T>::Swap(other)`: buffers and sizes exchange. -/
def vecSwap (a b : VectorM α) : VectorM α × VectorM α := (b, a)

/-- `Vector<T>::Reserve(new_capacity)`: no-op unless `new_capacity > capacity`;
otherwise allocate, `MoveElements(data_.GetAddress(), size_, new_data.GetAddress())`,
and `data_.Swap(new_data)` (the old buffer is released when `new_data` leaves
scope; its elements were already destroyed by `MoveElements`). -/
def reserve (E : ElemOps α) (v : VectorM α) (newCap : Nat) : Except CErr (VectorM α) :=
  if newCap ≤ v.data.capacity then .ok v
  else do
    let p ← moveElements E v.data 0 v.size (alloc newCap) 0
    pure ⟨p.2, v.size⟩

/-- `Vector<T>::Resize(new_size)`: shrinking destroys the trailing elements; growing
reserves then value-constructs the newly exposed slots; `size_ = new_size` always. -/
def resize (E : ElemOps α) (v : VectorM α) (newSize : Nat) : Except CErr (VectorM α) :=
  if newSize < v.size then do
    let m ← destroyN v.data newSize (v.size - newSize)
    pure ⟨m, newSize⟩
  else if newSize > v.size then do
    let v1 ← reserve E v newSize
    let m ← uninitValueConstructN E v1.data v1.size (newSize - v1.size)
    pure ⟨m, newSize⟩
  else .ok ⟨v.data, newSize⟩

/-- `Vector<T>::PopBack()`: `std::destroy_at(data_.GetAddress() + size_ - 1)` then
`--size_`.  There is no emptiness check; `size_ - 1` is `size_t` arithmetic and
wraps modulo `2^64` when `size_ == 0`, and `--size_` produces the same wrapped
value. -/
def popBack (v : VectorM α) : Except CErr (VectorM α) := do
  let i := (v.size + (USIZE - 1)) % USIZE
  let m ← destroyAt v.data i
  pure ⟨m, i⟩

/-- `Vector<T>::EmplaceWithReallocation(pos, args...)` with `current_pos` the index
`pos - begin()`: allocate `size_ == 0 ? 1 : size_ * 2` slots, construct the new
element at `new_data + current_pos` (through the asserting `RawMemory::operator+`),
relocate the prefix and the suffix around it with `MoveElements` when `size_ > 0`,
swap buffers, `++size_`. -/
def emplaceWithRealloc (E : ElemOps α) (v : VectorM α) (pos : Nat) (a : α) :
    Except CErr (VectorM α) := do
  let nd := alloc (α := α) (if v.size = 0 then 1 else v.size * 2)
  let off ← addrOf nd pos
  let nd1 ← constructAt nd off a
  let p ←
    if v.size > 0 then do
      let q ← moveElements E v.data 0 pos nd1 0
      moveElements E q.1 pos (v.size - pos) q.2 (pos + 1)
    else pure (v.data, nd1)
  pure ⟨p.2, v.size + 1⟩

/-- `Vector<T>::EmplaceWithoutReallocation(pos, args...)` with `current_pos` the
index `pos - begin()`.  When `size_ > 0` and `current_pos != size_`: the last
element is moved into the one-past-end slot
(`new (data_ + size_) T(std::move(data_[size_ - 1]))`), then
`std::move_backward(begin() + current_pos - 1, end() - 1, end())` — note the range
starts one slot *before* `current_pos` (`current_pos - 1` is `size_t` arithmetic,
which combined with 64-bit pointer arithmetic addresses the slot before the buffer
when `current_pos == 0`) — then `std::destroy_at(data_ + current_pos)`.  Finally the
new element is constructed at `data_ + current_pos` and `++size_`. -/
def emplaceWithoutRealloc (E : ElemOps α) (v : VectorM α) (pos : Nat) (a : α) :
    Except CErr (VectorM α) := do
  let m ←
    if v.size > 0 then
      if pos ≠ v.size then do
        let t ← addrOf v.data v.size
        let _ ← idxRef v.data (v.size - 1)
        let p ← moveFrom E v.data (v.size - 1)
        let m2 ← constructAt p.2 t p.1
        let m3 ← moveBackward E m2 ((pos : Int) - 1) ((v.size : Int) - 1) (v.size : Int)
        let t2 ← addrOf m3 pos
        destroyAt m3 t2
      else pure v.data
    else pure v.data
  let t3 ← addrOf m pos
  let m4 ← constructAt m t3 a
  pure ⟨m4, v.size + 1⟩

/-- `Vector<T>::Emplace(pos, args...)`: dispatch on `size_ == data_.Capacity()`. -/
def emplace (E : ElemOps α) (v : VectorM α) (pos : Nat) (a : α) :
    Except CErr (VectorM α) :=
  if v.size = v.data.capacity then emplaceWithRealloc E v pos a
  else emplaceWithoutRealloc E v pos a

/-- `Vector<T>::Insert(pos, value)`: forwards to `Emplace`. -/
def insert (E : ElemOps α) (v : VectorM α) (pos : Nat) (a : α) :
    Except CErr (VectorM α) :=
  emplace E v pos a

/-- `Vector<T>::PushBack` / `EmplaceBack`: `Emplace(end(), ...)`. -/
def pushBack (E : ElemOps α) (v : VectorM α) (a : α) : Except CErr (VectorM α) :=
  emplace E v v.size a

/-- `Vector<T>::Erase(pos)`: `std::move(current_pos + 1, end(), current_pos)` then
`PopBack()`. -/
def erase (E : ElemOps α) (v : VectorM α) (pos : Nat) : Except CErr (VectorM α) := do
  let m ← stdMove E v.data (pos + 1) v.size pos
  popBack ⟨m, v.size⟩

/-- `Vector<T>::operator[](index)`: `assert(index < size_)`, then
`RawMemory::operator[]` with its own `assert(index < capacity_)`. -/
def vecGet (v : VectorM α) (i : Nat) : Except CErr α :=
  if i < v.size then do
    let _ ← idxRef v.data i
    readAt v.data i
  else .error .assertFail

/-- An `int`-like element type: moving from an object leaves its value unchanged,
move construction is nothrow, and the type is copy-constructible. -/
def natOps : ElemOps Nat := ⟨0, id, true, true⟩

/-- An instrumented element type that records being moved from: a live object is
either a value or the residue `movedFrom` left behind by a move. -/
inductive MElem : Type
  | val : Nat → MElem
  | movedFrom
deriving DecidableEq

/-- `ElemOps` for `MElem` as an element type whose move construction may throw but
which is copy-constructible (the "fallible transfer, duplicable" scenario). -/
def fallibleMoveOps : ElemOps MElem := ⟨.val 0, fun _ => .movedFrom, false, true⟩

/-- Concrete input for C1: a well-formed vector of two `Nat` elements. -/
def c1v : VectorM Nat := ⟨⟨[some 7, some 8]⟩, 2⟩

/-- Concrete input for C2: a well-formed vector of one `Nat` element. -/
def c2v : VectorM Nat := ⟨⟨[some 3]⟩, 1⟩

/-- Concrete input for C3: elements `[10, 20]` in a buffer of capacity 4. -/
def c3v : VectorM MElem := ⟨⟨[some (.val 10), some (.val 20), none, none]⟩, 2⟩

/-- Concrete input for the `pos == begin` boundary of C3: one element, capacity 2. -/
def c3vEdge : VectorM MElem := ⟨⟨[some (.val 5), none]⟩, 1⟩

/-- Concrete input for C4: an empty vector. -/
def c4v : VectorM Nat := ⟨⟨[]⟩, 0⟩

/-- Concrete input for C7: elements `[1, 2, 3]` in a buffer of capacity 4. -/
def c7v : VectorM MElem := ⟨⟨[some (.val 1), some (.val 2), some (.val 3), none]⟩, 3⟩

/-- Concrete input for C8: one element `10` in a full buffer of capacity 1. -/
def c8v : VectorM Nat := ⟨⟨[some 10]⟩, 1⟩

/-- Concrete input for the C5 witness: one element in a full buffer of capacity 1. -/
def c5v : VectorM Nat := ⟨⟨[some 5]⟩, 1⟩

/-- Concrete source buffer for the C6 witness: two live instrumented elements. -/
def c6src : RawMem MElem := ⟨[some (.val 4), some (.val 5)]⟩

/-- Concrete destination buffer for the C6 witness: three raw slots. -/
def c6dst : RawMem MElem := ⟨[none, none, none]⟩

/-- Concrete input for the C8 witness: elements `[1, 2]` in a full buffer. -/
def c8w : VectorM Nat := ⟨⟨[some 1, some 2]⟩, 2⟩

/-- Concrete receiver for the C10 witness: one element, capacity 3. -/
def c10a : VectorM Nat := ⟨⟨[some 1, none, none]⟩, 1⟩

/-- Concrete right-hand side for the C10 witness: two elements, capacity 2. -/
def c10b : VectorM Nat := ⟨⟨[some 7, some 8]⟩, 2⟩

instance wfVecDecidable {α : Type} [DecidableEq α] (v : VectorM α) :
    Decidable (wfVec v) := by
  unfold wfVec
  infer_instance

/-! ### Helper lemmas about the embedded primitives -/

theorem exbind_ok {β γ : Type} (a : β) (f : β → Except CErr γ) :
    (Except.ok a >>= f) = f a := rfl

theorem exbind_pure {β γ : Type} (a : β) (f : β → Except CErr γ) :
    ((pure a : Except CErr β) >>= f) = f a := rfl

theorem capacity_writeSlot (m : RawMem α) (i : Nat) (c : Option α) :
    (writeSlot m i c).capacity = m.capacity :=
  List.length_set m.slots i c

theorem capacity_alloc (n : Nat) : (alloc n : RawMem α).capacity = n :=
  List.length_replicate n none

theorem writeSlot_get_self {m : RawMem α} {i : Nat} (c : Option α)
    (h : i < m.capacity) : (writeSlot m i c).slots[i]? = some c :=
  List.getElem?_set_self h

theorem writeSlot_get_ne {m : RawMem α} {i j : Nat} (c : Option α)
    (h : i ≠ j) : (writeSlot m i c).slots[j]? = m.slots[j]? :=
  List.getElem?_set_ne h

theorem valAt_isSome_iff {m : RawMem α} {i : Nat} :
    (valAt m i).isSome = true ↔ ∃ a, m.slots[i]? = some (some a) := by
  unfold valAt
  cases h : m.slots[i]? with
  | none => simp
  | some o => cases o <;> simp

theorem valAt_eq_of_slot {m : RawMem α} {i : Nat} {a : α}
    (h : m.slots[i]? = some (some a)) : valAt m i = some a := by
  unfold valAt
  rw [h]
  rfl

theorem slot_lt_capacity {m : RawMem α} {i : Nat} {o : Option α}
    (h : m.slots[i]? = some o) : i < m.capacity := by
  by_contra hc
  rw [List.getElem?_eq_none_iff.mpr (Nat.le_of_not_lt hc)] at h
  exact Option.noConfusion h

theorem readAt_ok {m : RawMem α} {i : Nat} {a : α}
    (h : m.slots[i]? = some (some a)) : readAt m i = .ok a := by
  unfold readAt
  rw [h]

theorem constructAt_ok {m : RawMem α} {i : Nat} (a : α) (h : i < m.capacity) :
    constructAt m i a = .ok (writeSlot m i (some a)) := by
  unfold constructAt
  rw [if_pos h]

theorem assignAt_ok {m : RawMem α} {i : Nat} {b : α} (a : α)
    (h : m.slots[i]? = some (some b)) : assignAt m i a = .ok (writeSlot m i (some a)) := by
  unfold assignAt
  rw [h]

theorem destroyAt_ok {m : RawMem α} {i : Nat} {b : α}
    (h : m.slots[i]? = some (some b)) : destroyAt m i = .ok (writeSlot m i none) := by
  unfold destroyAt
  rw [h]

theorem moveFrom_ok (E : ElemOps α) {m : RawMem α} {i : Nat} {a : α}
    (h : m.slots[i]? = some (some a)) :
    moveFrom E m i = .ok (a, writeSlot m i (some (E.moveResidue a))) := by
  unfold moveFrom
  rw [h]

/-! ### Specifications of the relocation loops -/

theorem uninitCopyN_spec :
    ∀ (cnt : Nat) (src : RawMem α) (srcOff : Nat) (dst : RawMem α) (dstOff : Nat),
    (∀ k, k < cnt → (valAt src (srcOff + k)).isSome = true) →
    dstOff + cnt ≤ dst.capacity →
    ∃ d, uninitCopyN src srcOff dst dstOff cnt = .ok d ∧
      d.capacity = dst.capacity ∧
      (∀ k, k < cnt → valAt d (dstOff + k) = valAt src (srcOff + k)) ∧
      (∀ j, j < dstOff → d.slots[j]? = dst.slots[j]?) ∧
      (∀ j, dstOff + cnt ≤ j → d.slots[j]? = dst.slots[j]?) := by
  intro cnt
  induction cnt with
  | zero =>
    intro src srcOff dst dstOff _ _
    exact ⟨dst, rfl, rfl, fun k hk => absurd hk (Nat.not_lt_zero k),
      fun j _ => rfl, fun j _ => rfl⟩
  | succ c ih =>
    intro src srcOff dst dstOff hlive hcap
    obtain ⟨a, ha⟩ := valAt_isSome_iff.mp (by simpa using hlive 0 (Nat.succ_pos c))
    have hoff : dstOff < dst.capacity := by omega
    have hstep : uninitCopyN src srcOff dst dstOff (c + 1) =
        uninitCopyN src (srcOff + 1) (writeSlot dst dstOff (some a)) (dstOff + 1) c := by
      simp only [uninitCopyN, readAt_ok ha, constructAt_ok a hoff, exbind_ok]
    have hlive2 : ∀ k, k < c → (valAt src (srcOff + 1 + k)).isSome = true := by
      intro k hk
      have h1 := hlive (k + 1) (by omega)
      rw [show srcOff + (k + 1) = srcOff + 1 + k by omega] at h1
      exact h1
    have hcap2 : dstOff + 1 + c ≤ (writeSlot dst dstOff (some a)).capacity := by
      rw [capacity_writeSlot]
      omega
    obtain ⟨d, heq, hcapd, hvals, hlow, hhigh⟩ :=
      ih src (srcOff + 1) (writeSlot dst dstOff (some a)) (dstOff + 1) hlive2 hcap2
    refine ⟨d, by rw [hstep]; exact heq, by rw [hcapd, capacity_writeSlot], ?_, ?_, ?_⟩
    · intro k hk
      cases k with
      | zero =>
        have hslot : d.slots[dstOff]? = some (some a) := by
          rw [hlow dstOff (by omega), writeSlot_get_self (some a) hoff]
        rw [Nat.add_zero, Nat.add_zero, valAt_eq_of_slot hslot, valAt_eq_of_slot ha]
      | succ k1 =>
        have h1 := hvals k1 (by omega)
        rw [show dstOff + 1 + k1 = dstOff + (k1 + 1) by omega,
          show srcOff + 1 + k1 = srcOff + (k1 + 1) by omega] at h1
        exact h1
    · intro j hj
      rw [hlow j (by omega), writeSlot_get_ne (some a) (by omega)]
    · intro j hj
      rw [hhigh j (by omega), writeSlot_get_ne (some a) (by omega)]

theorem valAt_congr {m1 m2 : RawMem α} {i j : Nat}
    (h : m1.slots[i]? = m2.slots[j]?) : valAt m1 i = valAt m2 j := by
  unfold valAt
  rw [h]

theorem valAt_writeSlot_ne {m : RawMem α} {i j : Nat} (c : Option α) (h : i ≠ j) :
    valAt (writeSlot m i c) j = valAt m j := by
  unfold valAt
  rw [writeSlot_get_ne c h]

theorem uninitMoveN_spec :
    ∀ (cnt : Nat) (E : ElemOps α) (src : RawMem α) (srcOff : Nat) (dst : RawMem α)
      (dstOff : Nat),
    (∀ k, k < cnt → (valAt src (srcOff + k)).isSome = true) →
    dstOff + cnt ≤ dst.capacity →
    ∃ s d, uninitMoveN E src srcOff dst dstOff cnt = .ok (s, d) ∧
      s.capacity = src.capacity ∧ d.capacity = dst.capacity ∧
      (∀ k, k < cnt → valAt d (dstOff + k) = valAt src (srcOff + k)) ∧
      (∀ k, k < cnt → ∃ a, valAt src (srcOff + k) = some a ∧
        s.slots[srcOff + k]? = some (some (E.moveResidue a))) ∧
      (∀ j, j < srcOff → s.slots[j]? = src.slots[j]?) ∧
      (∀ j, srcOff + cnt ≤ j → s.slots[j]? = src.slots[j]?) ∧
      (∀ j, j < dstOff → d.slots[j]? = dst.slots[j]?) ∧
      (∀ j, dstOff + cnt ≤ j → d.slots[j]? = dst.slots[j]?) := by
  intro cnt
  induction cnt with
  | zero =>
    intro E src srcOff dst dstOff _ _
    exact ⟨src, dst, rfl, rfl, rfl, fun k hk => absurd hk (Nat.not_lt_zero k),
      fun k hk => absurd hk (Nat.not_lt_zero k), fun j _ => rfl, fun j _ => rfl,
      fun j _ => rfl, fun j _ => rfl⟩
  | succ c ih =>
    intro E src srcOff dst dstOff hlive hcap
    obtain ⟨a, ha⟩ := valAt_isSome_iff.mp (by simpa using hlive 0 (Nat.succ_pos c))
    have hsrcOff : srcOff < src.capacity := slot_lt_capacity ha
    have hoff : dstOff < dst.capacity := by omega
    have hstep : uninitMoveN E src srcOff dst dstOff (c + 1) =
        uninitMoveN E (writeSlot src srcOff (some (E.moveResidue a))) (srcOff + 1)
          (writeSlot dst dstOff (some a)) (dstOff + 1) c := by
      simp only [uninitMoveN, moveFrom_ok E ha, exbind_ok, constructAt_ok a hoff]
    have hlive2 : ∀ k, k < c →
        (valAt (writeSlot src srcOff (some (E.moveResidue a))) (srcOff + 1 + k)).isSome
          = true := by
      intro k hk
      rw [valAt_writeSlot_ne _ (by omega)]
      have h1 := hlive (k + 1) (by omega)
      rw [show srcOff + (k + 1) = srcOff + 1 + k by omega] at h1
      exact h1
    have hcap2 : dstOff + 1 + c ≤ (writeSlot dst dstOff (some a)).capacity := by
      rw [capacity_writeSlot]
      omega
    obtain ⟨s, d, heq, hcaps, hcapd, hvals, hres, hslow, hshigh, hlow, hhigh⟩ :=
      ih E (writeSlot src srcOff (some (E.moveResidue a))) (srcOff + 1)
        (writeSlot dst dstOff (some a)) (dstOff + 1) hlive2 hcap2
    refine ⟨s, d, by rw [hstep]; exact heq,
      by rw [hcaps, capacity_writeSlot], by rw [hcapd, capacity_writeSlot], ?_, ?_, ?_, ?_, ?_, ?_⟩
    · intro k hk
      cases k with
      | zero =>
        have hslot : d.slots[dstOff]? = some (some a) := by
          rw [hlow dstOff (by omega), writeSlot_get_self (some a) hoff]
        rw [Nat.add_zero, Nat.add_zero, valAt_eq_of_slot hslot, valAt_eq_of_slot ha]
      | succ k1 =>
        have h1 := hvals k1 (by omega)
        rw [valAt_writeSlot_ne _ (by omega)] at h1
        rw [show dstOff + 1 + k1 = dstOff + (k1 + 1) by omega,
          show srcOff + 1 + k1 = srcOff + (k1 + 1) by omega] at h1
        exact h1
    · intro k hk
      cases k with
      | zero =>
        refine ⟨a, by rw [Nat.add_zero]; exact valAt_eq_of_slot ha, ?_⟩
        rw [Nat.add_zero, hslow srcOff (by omega), writeSlot_get_self _ hsrcOff]
      | succ k1 =>
        obtain ⟨b, hb1, hb2⟩ := hres k1 (by omega)
        rw [valAt_writeSlot_ne _ (by omega)] at hb1
        rw [show srcOff + 1 + k1 = srcOff + (k1 + 1) by omega] at hb1 hb2
        exact ⟨b, hb1, hb2⟩
    · intro j hj
      rw [hslow j (by omega), writeSlot_get_ne _ (by omega)]
    · intro j hj
      rw [hshigh j (by omega), writeSlot_get_ne _ (by omega)]
    · intro j hj
      rw [hlow j (by omega), writeSlot_get_ne _ (by omega)]
    · intro j hj
      rw [hhigh j (by omega), writeSlot_get_ne _ (by omega)]

theorem destroyN_spec :
    ∀ (cnt : Nat) (m : RawMem α) (off : Nat),
    (∀ k, k < cnt → (valAt m (off + k)).isSome = true) →
    ∃ m2, destroyN m off cnt = .ok m2 ∧
      m2.capacity = m.capacity ∧
      (∀ k, k < cnt → m2.slots[off + k]? = some none) ∧
      (∀ j, j < off → m2.slots[j]? = m.slots[j]?) ∧
      (∀ j, off + cnt ≤ j → m2.slots[j]? = m.slots[j]?) := by
  intro cnt
  induction cnt with
  | zero =>
    intro m off _
    exact ⟨m, rfl, rfl, fun k hk => absurd hk (Nat.not_lt_zero k),
      fun j _ => rfl, fun j _ => rfl⟩
  | succ c ih =>
    intro m off hlive
    obtain ⟨a, ha⟩ := valAt_isSome_iff.mp (by simpa using hlive 0 (Nat.succ_pos c))
    have hoff : off < m.capacity := slot_lt_capacity ha
    have hstep : destroyN m off (c + 1) = destroyN (writeSlot m off none) (off + 1) c := by
      simp only [destroyN, destroyAt_ok ha, exbind_ok]
    have hlive2 : ∀ k, k < c →
        (valAt (writeSlot m off none) (off + 1 + k)).isSome = true := by
      intro k hk
      rw [valAt_writeSlot_ne _ (by omega)]
      have h1 := hlive (k + 1) (by omega)
      rw [show off + (k + 1) = off + 1 + k by omega] at h1
      exact h1
    obtain ⟨m2, heq, hcap2, hdead, hlow, hhigh⟩ := ih (writeSlot m off none) (off + 1) hlive2
    refine ⟨m2, by rw [hstep]; exact heq, by rw [hcap2, capacity_writeSlot], ?_, ?_, ?_⟩
    · intro k hk
      cases k with
      | zero =>
        rw [Nat.add_zero, hlow off (by omega), writeSlot_get_self none hoff]
      | succ k1 =>
        have h1 := hdead k1 (by omega)
        rw [show off + 1 + k1 = off + (k1 + 1) by omega] at h1
        exact h1
    · intro j hj
      rw [hlow j (by omega), writeSlot_get_ne _ (by omega)]
    · intro j hj
      rw [hhigh j (by omega), writeSlot_get_ne _ (by omega)]

theorem uninitValueConstructN_spec :
    ∀ (cnt : Nat) (E : ElemOps α) (m : RawMem α) (off : Nat),
    off + cnt ≤ m.capacity →
    ∃ m2, uninitValueConstructN E m off cnt = .ok m2 ∧
      m2.capacity = m.capacity ∧
      (∀ k, k < cnt → m2.slots[off + k]? = some (some E.defaultVal)) ∧
      (∀ j, j < off → m2.slots[j]? = m.slots[j]?) ∧
      (∀ j, off + cnt ≤ j → m2.slots[j]? = m.slots[j]?) := by
  intro cnt
  induction cnt with
  | zero =>
    intro E m off _
    exact ⟨m, rfl, rfl, fun k hk => absurd hk (Nat.not_lt_zero k),
      fun j _ => rfl, fun j _ => rfl⟩
  | succ c ih =>
    intro E m off hcap
    have hoff : off < m.capacity := by omega
    have hstep : uninitValueConstructN E m off (c + 1) =
        uninitValueConstructN E (writeSlot m off (some E.defaultVal)) (off + 1) c := by
      simp only [uninitValueConstructN, constructAt_ok E.defaultVal hoff, exbind_ok]
    have hcap2 : off + 1 + c ≤ (writeSlot m off (some E.defaultVal)).capacity := by
      rw [capacity_writeSlot]
      omega
    obtain ⟨m2, heq, hcapm, hval, hlow, hhigh⟩ :=
      ih E (writeSlot m off (some E.defaultVal)) (off + 1) hcap2
    refine ⟨m2, by rw [hstep]; exact heq, by rw [hcapm, capacity_writeSlot], ?_, ?_, ?_⟩
    · intro k hk
      cases k with
      | zero =>
        rw [Nat.add_zero, hlow off (by omega), writeSlot_get_self _ hoff]
      | succ k1 =>
        have h1 := hval k1 (by omega)
        rw [show off + 1 + k1 = off + (k1 + 1) by omega] at h1
        exact h1
    · intro j hj
      rw [hlow j (by omega), writeSlot_get_ne _ (by omega)]
    · intro j hj
      rw [hhigh j (by omega), writeSlot_get_ne _ (by omega)]

theorem copyAssignN_spec :
    ∀ (cnt : Nat) (src : RawMem α) (srcOff : Nat) (dst : RawMem α) (dstOff : Nat),
    (∀ k, k < cnt → (valAt src (srcOff + k)).isSome = true) →
    (∀ k, k < cnt → (valAt dst (dstOff + k)).isSome = true) →
    ∃ d, copyAssignN src srcOff dst dstOff cnt = .ok d ∧
      d.capacity = dst.capacity ∧
      (∀ k, k < cnt → valAt d (dstOff + k) = valAt src (srcOff + k)) ∧
      (∀ j, j < dstOff → d.slots[j]? = dst.slots[j]?) ∧
      (∀ j, dstOff + cnt ≤ j → d.slots[j]? = dst.slots[j]?) := by
  intro cnt
  induction cnt with
  | zero =>
    intro src srcOff dst dstOff _ _
    exact ⟨dst, rfl, rfl, fun k hk => absurd hk (Nat.not_lt_zero k),
      fun j _ => rfl, fun j _ => rfl⟩
  | succ c ih =>
    intro src srcOff dst dstOff hlive hdst
    obtain ⟨a, ha⟩ := valAt_isSome_iff.mp (by simpa using hlive 0 (Nat.succ_pos c))
    obtain ⟨b, hb⟩ := valAt_isSome_iff.mp (by simpa using hdst 0 (Nat.succ_pos c))
    have hoff : dstOff < dst.capacity := slot_lt_capacity hb
    have hstep : copyAssignN src srcOff dst dstOff (c + 1) =
        copyAssignN src (srcOff + 1) (writeSlot dst dstOff (some a)) (dstOff + 1) c := by
      simp only [copyAssignN, readAt_ok ha, exbind_ok, assignAt_ok a hb]
    have hlive2 : ∀ k, k < c → (valAt src (srcOff + 1 + k)).isSome = true := by
      intro k hk
      have h1 := hlive (k + 1) (by omega)
      rw [show srcOff + (k + 1) = srcOff + 1 + k by omega] at h1
      exact h1
    have hdst2 : ∀ k, k < c →
        (valAt (writeSlot dst dstOff (some a)) (dstOff + 1 + k)).isSome = true := by
      intro k hk
      rw [valAt_writeSlot_ne _ (by omega)]
      have h1 := hdst (k + 1) (by omega)
      rw [show dstOff + (k + 1) = dstOff + 1 + k by omega] at h1
      exact h1
    obtain ⟨d, heq, hcapd, hvals, hlow, hhigh⟩ :=
      ih src (srcOff + 1) (writeSlot dst dstOff (some a)) (dstOff + 1) hlive2 hdst2
    refine ⟨d, by rw [hstep]; exact heq, by rw [hcapd, capacity_writeSlot], ?_, ?_, ?_⟩
    · intro k hk
      cases k with
      | zero =>
        have hslot : d.slots[dstOff]? = some (some a) := by
          rw [hlow dstOff (by omega), writeSlot_get_self (some a) hoff]
        rw [Nat.add_zero, Nat.add_zero, valAt_eq_of_slot hslot, valAt_eq_of_slot ha]
      | succ k1 =>
        have h1 := hvals k1 (by omega)
        rw [show dstOff + 1 + k1 = dstOff + (k1 + 1) by omega,
          show srcOff + 1 + k1 = srcOff + (k1 + 1) by omega] at h1
        exact h1
    · intro j hj
      rw [hlow j (by omega), writeSlot_get_ne _ (by omega)]
    · intro j hj
      rw [hhigh j (by omega), writeSlot_get_ne _ (by omega)]

theorem moveElements_spec (E : ElemOps α) (src : RawMem α) (srcOff cnt : Nat)
    (dst : RawMem α) (dstOff : Nat)
    (hlive : ∀ k, k < cnt → (valAt src (srcOff + k)).isSome = true)
    (hcap : dstOff + cnt ≤ dst.capacity) :
    ∃ s d, moveElements E src srcOff cnt dst dstOff = .ok (s, d) ∧
      s.capacity = src.capacity ∧ d.capacity = dst.capacity ∧
      (∀ k, k < cnt → valAt d (dstOff + k) = valAt src (srcOff + k)) ∧
      (∀ k, k < cnt → s.slots[srcOff + k]? = some none) ∧
      (∀ j, j < srcOff → s.slots[j]? = src.slots[j]?) ∧
      (∀ j, srcOff + cnt ≤ j → s.slots[j]? = src.slots[j]?) ∧
      (∀ j, j < dstOff → d.slots[j]? = dst.slots[j]?) ∧
      (∀ j, dstOff + cnt ≤ j → d.slots[j]? = dst.slots[j]?) := by
  cases hpol : (E.nothrowMove || !E.copyConstructible) with
  | true =>
    obtain ⟨s1, d1, heq, hcaps, hcapd, hvals, hres, hslow, hshigh, hlow, hhigh⟩ :=
      uninitMoveN_spec cnt E src srcOff dst dstOff hlive hcap
    have hlive2 : ∀ k, k < cnt → (valAt s1 (srcOff + k)).isSome = true := by
      intro k hk
      obtain ⟨a, _, h2⟩ := hres k hk
      exact valAt_isSome_iff.mpr ⟨_, h2⟩
    obtain ⟨s2, heq2, hcap2, hdead, hdlow, hdhigh⟩ := destroyN_spec cnt s1 srcOff hlive2
    refine ⟨s2, d1, ?_, by rw [hcap2, hcaps], hcapd, hvals, ?_, ?_, ?_, hlow, hhigh⟩
    · simp only [moveElements, hpol, exbind_ok, heq, heq2, if_pos]
      rfl
    · intro k hk
      exact hdead k hk
    · intro j hj
      rw [hdlow j hj, hslow j hj]
    · intro j hj
      rw [hdhigh j hj, hshigh j hj]
  | false =>
    obtain ⟨d1, heq, hcapd, hvals, hlow, hhigh⟩ :=
      uninitCopyN_spec cnt src srcOff dst dstOff hlive hcap
    obtain ⟨s2, heq2, hcap2, hdead, hdlow, hdhigh⟩ := destroyN_spec cnt src srcOff hlive
    refine ⟨s2, d1, ?_, hcap2, hcapd, hvals, ?_, hdlow, hdhigh, hlow, hhigh⟩
    · simp only [moveElements, hpol, exbind_ok, exbind_pure, heq, heq2, if_neg,
        Bool.false_eq_true, not_false_iff]
      rfl
    · intro k hk
      exact hdead k hk

theorem reserve_spec (E : ElemOps α) (v : VectorM α) (n : Nat) (hwf : wfVec v) :
    ∃ v2, reserve E v n = .ok v2 ∧ v2.size = v.size ∧
      v2.data.capacity = (if n ≤ v.data.capacity then v.data.capacity else n) ∧
      (∀ i, i < v.size → valAt v2.data i = valAt v.data i) := by
  by_cases hle : n ≤ v.data.capacity
  · refine ⟨v, ?_, rfl, by rw [if_pos hle], fun i _ => rfl⟩
    unfold reserve
    rw [if_pos hle]
  · have hlive : ∀ k, k < v.size → (valAt v.data (0 + k)).isSome = true := by
      intro k hk
      rw [Nat.zero_add]
      exact hwf.2.1 k hk
    have hcap : 0 + v.size ≤ (alloc n : RawMem α).capacity := by
      have hsz := hwf.1
      rw [capacity_alloc]
      omega
    obtain ⟨s, d, heq, _, hcapd, hvals, _, _, _, _, _⟩ :=
      moveElements_spec E v.data 0 v.size (alloc n) 0 hlive hcap
    refine ⟨⟨d, v.size⟩, ?_, rfl, ?_, ?_⟩
    · unfold reserve
      rw [if_neg hle]
      simp only [heq, exbind_ok]
      rfl
    · rw [if_neg hle]
      rw [hcapd, capacity_alloc]
    · intro i hi
      simpa using hvals i hi

theorem emplaceWithRealloc_spec (E : ElemOps α) (v : VectorM α) (pos : Nat) (a : α)
    (hwf : wfVec v) (hpos : pos ≤ v.size) :
    ∃ v2, emplaceWithRealloc E v pos a = .ok v2 ∧
      v2.size = v.size + 1 ∧
      v2.data.capacity = (if v.size = 0 then 1 else v.size * 2) ∧
      (∀ i, i < pos → valAt v2.data i = valAt v.data i) ∧
      (∀ i, pos ≤ i → i < v.size → valAt v2.data (i + 1) = valAt v.data i) ∧
      valAt v2.data pos = some a := by
  have hszN : v.size < (if v.size = 0 then 1 else v.size * 2) := by
    by_cases h0 : v.size = 0
    · rw [if_pos h0]; omega
    · rw [if_neg h0]; omega
  have haddr : addrOf (alloc (α := α) (if v.size = 0 then 1 else v.size * 2)) pos
      = .ok pos := by
    unfold addrOf
    rw [capacity_alloc, if_pos (by omega)]
  have hconcap : pos < (alloc (α := α) (if v.size = 0 then 1 else v.size * 2)).capacity := by
    rw [capacity_alloc]
    omega
  have hcon := constructAt_ok (m := alloc (α := α) (if v.size = 0 then 1 else v.size * 2))
    (i := pos) a hconcap
  by_cases h0 : v.size = 0
  · -- empty vector: nothing is relocated
    have hp0 : pos = 0 := by omega
    refine ⟨⟨writeSlot (alloc (α := α) (if v.size = 0 then 1 else v.size * 2)) pos (some a),
      v.size + 1⟩, ?_, rfl, by rw [capacity_writeSlot, capacity_alloc], ?_, ?_, ?_⟩
    · simp only [emplaceWithRealloc, haddr, exbind_ok, hcon, if_neg (by omega : ¬ v.size > 0)]
      rfl
    · intro i hi
      omega
    · intro i hi1 hi2
      omega
    · exact valAt_eq_of_slot (writeSlot_get_self (some a) hconcap)
  · -- non-empty vector: relocate prefix and suffix around the new element
    have hv : v.size > 0 := by omega
    set N := if v.size = 0 then 1 else v.size * 2 with hN
    have hNval : N = v.size * 2 := by rw [hN, if_neg h0]
    set nd1 := writeSlot (alloc (α := α) N) pos (some a) with hnd1
    have hnd1cap : nd1.capacity = N := by rw [hnd1, capacity_writeSlot, capacity_alloc]
    have hlive1 : ∀ k, k < pos → (valAt v.data (0 + k)).isSome = true := by
      intro k hk
      rw [Nat.zero_add]
      exact hwf.2.1 k (by omega)
    have hcap1 : 0 + pos ≤ nd1.capacity := by rw [hnd1cap]; omega
    obtain ⟨s1, d1, heq1, hcaps1, hcapd1, hvals1, hdead1, hslow1, hshigh1, hlow1, hhigh1⟩ :=
      moveElements_spec E v.data 0 pos nd1 0 hlive1 hcap1
    have hlive2 : ∀ k, k < v.size - pos → (valAt s1 (pos + k)).isSome = true := by
      intro k hk
      rw [valAt_congr (hshigh1 (pos + k) (by omega))]
      exact hwf.2.1 (pos + k) (by omega)
    have hcap2 : (pos + 1) + (v.size - pos) ≤ d1.capacity := by
      rw [hcapd1, hnd1cap]
      omega
    obtain ⟨s2, d2, heq2, hcaps2, hcapd2, hvals2, hdead2, hslow2, hshigh2, hlow2, hhigh2⟩ :=
      moveElements_spec E s1 pos (v.size - pos) d1 (pos + 1) hlive2 hcap2
    refine ⟨⟨d2, v.size + 1⟩, ?_, rfl, ?_, ?_, ?_, ?_⟩
    · simp only [emplaceWithRealloc, ← hN, haddr, exbind_ok, hcon, ← hnd1,
        if_pos hv, heq1, heq2]
      rfl
    · rw [hcapd2, hcapd1, hnd1cap]
    · intro i hi
      rw [valAt_congr (hlow2 i (by omega))]
      simpa using hvals1 i hi
    · intro i hi1 hi2
      have h1 := hvals2 (i - pos) (by omega)
      rw [show pos + 1 + (i - pos) = i + 1 by omega] at h1
      rw [h1, valAt_congr (hshigh1 (pos + (i - pos)) (by omega)),
        show pos + (i - pos) = i by omega]
    · rw [valAt_congr (hlow2 pos (by omega)), valAt_congr (hhigh1 pos (by omega))]
      exact valAt_eq_of_slot (writeSlot_get_self (some a) hconcap)

/-! ### Claim theorems -/

theorem exbind_err {β γ : Type} (e : CErr) (f : β → Except CErr γ) :
    ((Except.error e : Except CErr β) >>= f) = .error e := rfl

/-- Claim C1: the spec says move-construction and move-assignment leave the source
with `size = 0` and an empty buffer while the destination reproduces the source's
prior state.  The code transfers the buffer (so the source's capacity becomes `0`)
and the destination does reproduce the source, but neither the move constructor nor
the move assignment ever resets the source's `size_`: on a vector of two elements
the source is left with `Size() == 2` and `Capacity() == 0`, contradicting the
claimed `Size() == 0`. -/
theorem C1_move_leaves_source_size_stale :
    (vecMoveCtor c1v).1 = c1v ∧
    (vecMoveCtor c1v).2.data.capacity = 0 ∧
    (vecMoveCtor c1v).2.size = 2 ∧
    (vecMoveCtor c1v).2.size ≠ 0 ∧
    (vecMoveAssign vecDefault c1v).1 = c1v ∧
    (vecMoveAssign vecDefault c1v).2.data.capacity = 0 ∧
    (vecMoveAssign vecDefault c1v).2.size = 2 ∧
    (vecMoveAssign vecDefault c1v).2.size ≠ 0 :=
  ⟨rfl, rfl, rfl, by decide, rfl, rfl, rfl, by decide⟩

/-- Claim C2: the spec states the invariant `0 ≤ size ≤ capacity` for every
reachable state.  The move constructor (and move assignment) breaks it: starting
from the well-formed one-element vector `c2v`, the moved-from source is left with
`size = 1 > capacity = 0`, so not every public operation preserves the invariant. -/
theorem C2_move_breaks_size_le_capacity :
    wfVec c2v ∧
    (vecMoveCtor c2v).2.size = 1 ∧
    (vecMoveCtor c2v).2.data.capacity = 0 ∧
    ¬ ((vecMoveCtor c2v).2.size ≤ (vecMoveCtor c2v).2.data.capacity) := by
  refine ⟨by decide, rfl, rfl, by decide⟩

/-- Claim C3: the spec says the in-capacity `Emplace` at `pos != end` shifts exactly
`[pos, end-1)` one slot toward the end and leaves indices `[0, pos)` unchanged.
The code's `std::move_backward(begin() + current_pos - 1, end() - 1, end())` starts
one slot too early: on `[10, 20]` with capacity 4, emplacing `99` at index 1 moves
the element at index 0 as well, leaving index 0 moved-from instead of holding `10`;
and at `pos == begin` on a non-empty vector the shift reads the slot before the
buffer (undefined behaviour). -/
theorem C3_emplace_shifts_slot_before_pos :
    emplace fallibleMoveOps c3v 1 (.val 99) =
      .ok ⟨⟨[some .movedFrom, some (.val 99), some (.val 20), none]⟩, 3⟩ ∧
    valAt c3v.data 0 = some (.val 10) ∧
    valAt (⟨[some .movedFrom, some (.val 99), some (.val 20), none]⟩ : RawMem MElem) 0 ≠
      some (.val 10) ∧
    emplace fallibleMoveOps c3vEdge 0 (.val 9) = .error .ub :=
  ⟨rfl, rfl, by decide, rfl⟩

/-- Claim C4 (counterexample): the claim says `PopBack` on an empty vector fails an
assertion.  `PopBack` contains no assertion at all: on the empty vector the code
proceeds into `std::destroy_at(data_.GetAddress() + size_ - 1)` with the wrapped
`size_t` offset `2^64 - 1`, which is undefined behaviour, not an assertion failure. -/
theorem C4_counterexample :
    popBack c4v = .error .ub ∧
    (Except.error .ub : Except CErr (VectorM Nat)) ≠ .error .assertFail :=
  ⟨rfl, fun h => CErr.noConfusion (Except.error.inj h)⟩

/-- Claim C4 (amended): `PopBack` on an empty vector is an unchecked contract
violation: no assertion fires; `size_ - 1` wraps to `2^64 - 1` and the code destroys
a slot far outside the buffer — undefined behaviour in the source, `CErr.ub` in the
model — for every vector of size 0 (any buffer of realistic capacity `< 2^64`). -/
theorem C4_popBack_empty_unchecked (v : VectorM α) (h0 : v.size = 0)
    (hcap : v.data.capacity < USIZE) :
    popBack v = .error .ub := by
  have hU : 0 < USIZE := by norm_num [USIZE]
  have hidx : (v.size + (USIZE - 1)) % USIZE = USIZE - 1 := by
    rw [h0, Nat.zero_add, Nat.mod_eq_of_lt (by omega)]
  have hlen : v.data.slots.length < USIZE := hcap
  have hnone : v.data.slots[USIZE - 1]? = (none : Option (Option α)) :=
    List.getElem?_eq_none_iff.mpr (by omega)
  have hdes : destroyAt v.data (USIZE - 1) = (.error .ub : Except CErr (RawMem α)) := by
    unfold destroyAt
    rw [hnone]
  simp only [popBack, hidx, hdes, exbind_err]

/-- Witness for the amended C4 at the concrete empty vector `c4v`. -/
theorem C4_popBack_empty_unchecked_witness :
    (c4v.size = 0 ∧ c4v.data.capacity < USIZE) ∧ popBack c4v = .error .ub :=
  ⟨⟨rfl, by decide⟩, C4_popBack_empty_unchecked c4v rfl (by decide)⟩

/-- Claim C9: move-assigning a vector to itself (`v = std::move(v)`) is an identity.
`data_ = std::exchange(rhs.data_, {})` routes the handle through the returned
temporary, so with `this == &rhs` the original buffer is re-installed and
`size_ = rhs.size_` reads the unchanged size: the vector is exactly as before,
despite the absence of a self-assignment guard. -/
theorem C9_self_move_assign_identity (v : VectorM α) :
    vecMoveAssignSelf v = v := rfl

/-- Claim C7: the spec says `Insert(begin()+p, x)` followed by `Erase(begin()+p)`
restores the original sequence for every valid `p`.  Because the in-capacity insert
shifts the slot before `pos` (the C3 defect), the round trip does not restore the
element at index `p - 1`: on `[1, 2, 3]` with capacity 4, inserting `99` at index 2
and erasing index 2 yields `[1, movedFrom, 3]`, not `[1, 2, 3]`. -/
theorem C7_insert_erase_not_restoring :
    (insert fallibleMoveOps c7v 2 (.val 99) >>= fun v1 => erase fallibleMoveOps v1 2) =
      .ok ⟨⟨[some (.val 1), some .movedFrom, some (.val 3), none]⟩, 3⟩ ∧
    valAt c7v.data 1 = some (.val 2) ∧
    valAt (⟨[some (.val 1), some .movedFrom, some (.val 3), none]⟩ : RawMem MElem) 1 ≠
      some (.val 2) :=
  ⟨rfl, rfl, by decide⟩

/-- Claim C5: when `size == capacity`, an append or insert grows the capacity to
exactly 1 if the current capacity is 0, else to exactly twice the current capacity.
`EmplaceWithReallocation` allocates `size_ == 0 ? 1 : size_ * 2` slots, which under
`size == capacity` is exactly the claimed policy (and `PushBack`, `Insert` and
`EmplaceBack` all forward to `Emplace`). -/
theorem C5_growth_capacity_policy (E : ElemOps α) (v : VectorM α) (pos : Nat) (a : α)
    (hwf : wfVec v) (hfull : v.size = v.data.capacity) (hpos : pos ≤ v.size) :
    ∃ v2, emplace E v pos a = .ok v2 ∧ v2.size = v.size + 1 ∧
      v2.data.capacity = (if v.data.capacity = 0 then 1 else 2 * v.data.capacity) := by
  obtain ⟨v2, heq, hsz, hcap, _, _, _⟩ := emplaceWithRealloc_spec E v pos a hwf hpos
  refine ⟨v2, ?_, hsz, ?_⟩
  · unfold emplace
    rw [if_pos hfull]
    exact heq
  · rw [hcap, hfull]
    by_cases h0 : v.data.capacity = 0
    · rw [if_pos h0, if_pos h0]
    · rw [if_neg h0, if_neg h0]
      omega

/-- Witness for C5: emplacing into the full one-element vector `c5v` doubles the
capacity from 1 to 2. -/
theorem C5_growth_capacity_policy_witness :
    (wfVec c5v ∧ c5v.size = c5v.data.capacity ∧ 1 ≤ c5v.size) ∧
    ∃ v2, emplace natOps c5v 1 6 = .ok v2 ∧ v2.size = c5v.size + 1 ∧
      v2.data.capacity = (if c5v.data.capacity = 0 then 1 else 2 * c5v.data.capacity) :=
  ⟨⟨by decide, rfl, by decide⟩,
    C5_growth_capacity_policy natOps c5v 1 6 (by decide) rfl (by decide)⟩

/-- Claim C6: `MoveElements` relocates each element in index order by ownership
transfer exactly when the element type's move construction cannot throw or the type
is not copy-constructible, and otherwise duplicates every element; in the
duplication case the source slots are untouched by the relocation phase (the
relocation result is `src` itself), the destination receives equal values, and the
source elements are destroyed only afterwards, as a unit, by the trailing
`destroy_n`.  In the transfer case every source slot is left holding the move
residue of its value before the unit destruction. -/
theorem C6_relocation_policy (E : ElemOps α) (src dst : RawMem α)
    (srcOff cnt dstOff : Nat)
    (hlive : ∀ k, k < cnt → (valAt src (srcOff + k)).isSome = true)
    (hcap : dstOff + cnt ≤ dst.capacity) :
    ((E.nothrowMove || !E.copyConstructible) = true →
      ∃ s1 d1, uninitMoveN E src srcOff dst dstOff cnt = .ok (s1, d1) ∧
        moveElements E src srcOff cnt dst dstOff =
          (destroyN s1 srcOff cnt >>= fun s2 => pure (s2, d1)) ∧
        (∀ k, k < cnt → valAt d1 (dstOff + k) = valAt src (srcOff + k)) ∧
        (∀ k, k < cnt → ∃ a, valAt src (srcOff + k) = some a ∧
          valAt s1 (srcOff + k) = some (E.moveResidue a))) ∧
    ((E.nothrowMove || !E.copyConstructible) = false →
      ∃ d1, uninitCopyN src srcOff dst dstOff cnt = .ok d1 ∧
        moveElements E src srcOff cnt dst dstOff =
          (destroyN src srcOff cnt >>= fun s2 => pure (s2, d1)) ∧
        (∀ k, k < cnt → valAt d1 (dstOff + k) = valAt src (srcOff + k))) := by
  constructor
  · intro hpol
    obtain ⟨s1, d1, heq, _, _, hvals, hres, _, _, _, _⟩ :=
      uninitMoveN_spec cnt E src srcOff dst dstOff hlive hcap
    refine ⟨s1, d1, heq, ?_, hvals, ?_⟩
    · simp only [moveElements, hpol, if_pos, heq, exbind_ok]
    · intro k hk
      obtain ⟨a, ha1, ha2⟩ := hres k hk
      exact ⟨a, ha1, valAt_eq_of_slot ha2⟩
  · intro hpol
    obtain ⟨d1, heq, _, hvals, _, _⟩ :=
      uninitCopyN_spec cnt src srcOff dst dstOff hlive hcap
    refine ⟨d1, heq, ?_, hvals⟩
    simp only [moveElements, hpol, Bool.false_eq_true, if_neg, not_false_iff,
      heq, exbind_ok, exbind_pure]

/-- Witness for C6 at the instrumented fallible-move, copy-constructible element
type: relocating the two elements of `c6src` into `c6dst` takes the duplication
branch. -/
theorem C6_relocation_policy_witness :
    ((∀ k, k < 2 → (valAt c6src (0 + k)).isSome = true) ∧ 0 + 2 ≤ c6dst.capacity) ∧
    (((fallibleMoveOps.nothrowMove || !fallibleMoveOps.copyConstructible) = true →
      ∃ s1 d1, uninitMoveN fallibleMoveOps c6src 0 c6dst 0 2 = .ok (s1, d1) ∧
        moveElements fallibleMoveOps c6src 0 2 c6dst 0 =
          (destroyN s1 0 2 >>= fun s2 => pure (s2, d1)) ∧
        (∀ k, k < 2 → valAt d1 (0 + k) = valAt c6src (0 + k)) ∧
        (∀ k, k < 2 → ∃ a, valAt c6src (0 + k) = some a ∧
          valAt s1 (0 + k) = some (fallibleMoveOps.moveResidue a))) ∧
    ((fallibleMoveOps.nothrowMove || !fallibleMoveOps.copyConstructible) = false →
      ∃ d1, uninitCopyN c6src 0 c6dst 0 2 = .ok d1 ∧
        moveElements fallibleMoveOps c6src 0 2 c6dst 0 =
          (destroyN c6src 0 2 >>= fun s2 => pure (s2, d1)) ∧
        (∀ k, k < 2 → valAt d1 (0 + k) = valAt c6src (0 + k)))) :=
  ⟨⟨by decide, by decide⟩,
    C6_relocation_policy fallibleMoveOps c6src c6dst 0 2 0 (by decide) (by decide)⟩

/-- Claim C8 (counterexample): the claim says every capacity-increasing operation,
including an insert that triggers reallocation, leaves the previously live elements
at the same indices.  Inserting at the front of the full one-element vector `c8v`
grows the buffer but relocates the old element `10` from index 0 to index 1: index 0
holds the new element `99` afterwards, not `10`. -/
theorem C8_counterexample :
    insert natOps c8v 0 99 = .ok ⟨⟨[some 99, some 10]⟩, 2⟩ ∧
    valAt c8v.data 0 = some 10 ∧
    valAt (⟨[some 99, some 10]⟩ : RawMem Nat) 0 ≠ some 10 :=
  ⟨rfl, rfl, by decide⟩

/-- Claim C8 (amended): no capacity-increasing operation discards a live element.
`Reserve` and a growing (or size-preserving) `Resize` keep every live element at
the same index with an equal value; a reallocating `Emplace` at position `pos`
keeps `[0, pos)` at the same indices, moves `[pos, size)` up by exactly one index
with equal values, and puts the new element at `pos` (so a reallocating append,
`pos = size`, keeps every element at its index). -/
theorem C8_growth_preserves_elements (E : ElemOps α) (v : VectorM α) (hwf : wfVec v) :
    (∀ n, ∃ v2, reserve E v n = .ok v2 ∧ v2.size = v.size ∧
      (∀ i, i < v.size → valAt v2.data i = valAt v.data i)) ∧
    (∀ n, v.size ≤ n → ∃ v2, resize E v n = .ok v2 ∧ v2.size = n ∧
      (∀ i, i < v.size → valAt v2.data i = valAt v.data i)) ∧
    (∀ pos a, pos ≤ v.size → v.size = v.data.capacity →
      ∃ v2, emplace E v pos a = .ok v2 ∧ v2.size = v.size + 1 ∧
        (∀ i, i < pos → valAt v2.data i = valAt v.data i) ∧
        (∀ i, pos ≤ i → i < v.size → valAt v2.data (i + 1) = valAt v.data i) ∧
        valAt v2.data pos = some a) := by
  refine ⟨?_, ?_, ?_⟩
  · intro n
    obtain ⟨v2, heq, hsz, _, hvals⟩ := reserve_spec E v n hwf
    exact ⟨v2, heq, hsz, hvals⟩
  · intro n hn
    by_cases heqn : n = v.size
    · subst heqn
      refine ⟨⟨v.data, v.size⟩, ?_, rfl, fun i _ => rfl⟩
      unfold resize
      rw [if_neg (by omega), if_neg (by omega)]
    · have hgt : n > v.size := by omega
      obtain ⟨v1, heq1, hsz1, hcap1, hvals1⟩ := reserve_spec E v n hwf
      have hcapge : n ≤ v1.data.capacity := by
        rw [hcap1]
        by_cases h : n ≤ v.data.capacity
        · rw [if_pos h]
          exact h
        · rw [if_neg h]
      have hcap2 : v1.size + (n - v1.size) ≤ v1.data.capacity := by omega
      obtain ⟨m, heqm, _, _, hmlow, _⟩ :=
        uninitValueConstructN_spec (n - v1.size) E v1.data v1.size hcap2
      refine ⟨⟨m, n⟩, ?_, rfl, ?_⟩
      · unfold resize
        rw [if_neg (by omega), if_pos hgt]
        simp only [heq1, exbind_ok, heqm]
        rfl
      · intro i hi
        rw [show valAt (⟨m, n⟩ : VectorM α).data i = valAt m i from rfl,
          valAt_congr (hmlow i (by omega)), hvals1 i hi]
  · intro pos a hpos hfull
    obtain ⟨v2, heq, hsz, _, hpre, hsuf, hat⟩ := emplaceWithRealloc_spec E v pos a hwf hpos
    refine ⟨v2, ?_, hsz, hpre, hsuf, hat⟩
    unfold emplace
    rw [if_pos hfull]
    exact heq

/-- Witness for the amended C8 at the concrete full two-element vector `c8w`. -/
theorem C8_growth_preserves_elements_witness :
    wfVec c8w ∧
    ((∀ n, ∃ v2, reserve natOps c8w n = .ok v2 ∧ v2.size = c8w.size ∧
      (∀ i, i < c8w.size → valAt v2.data i = valAt c8w.data i)) ∧
    (∀ n, c8w.size ≤ n → ∃ v2, resize natOps c8w n = .ok v2 ∧ v2.size = n ∧
      (∀ i, i < c8w.size → valAt v2.data i = valAt c8w.data i)) ∧
    (∀ pos a, pos ≤ c8w.size → c8w.size = c8w.data.capacity →
      ∃ v2, emplace natOps c8w pos a = .ok v2 ∧ v2.size = c8w.size + 1 ∧
        (∀ i, i < pos → valAt v2.data i = valAt c8w.data i) ∧
        (∀ i, pos ≤ i → i < c8w.size → valAt v2.data (i + 1) = valAt c8w.data i) ∧
        valAt v2.data pos = some a)) :=
  ⟨by decide, C8_growth_preserves_elements natOps c8w (by decide)⟩

/-- Claim C10: copy-assignment reuses the existing storage (capacity unchanged)
whenever `rhs.Size() <= Capacity()`, and otherwise rebuilds through a copy of `rhs`
and `Swap`, making the capacity exactly `rhs.Size()`. -/
theorem C10_copy_assign_capacity (v rhs : VectorM α) (hv : wfVec v) (hr : wfVec rhs) :
    ∃ v2, vecCopyAssign v rhs = .ok v2 ∧ v2.size = rhs.size ∧
      (rhs.size ≤ v.data.capacity → v2.data.capacity = v.data.capacity) ∧
      (v.data.capacity < rhs.size → v2.data.capacity = rhs.size) := by
  by_cases hgt : rhs.size > v.data.capacity
  · have hlive : ∀ k, k < rhs.size → (valAt rhs.data (0 + k)).isSome = true := by
      intro k hk
      rw [Nat.zero_add]
      exact hr.2.1 k hk
    have hcap : 0 + rhs.size ≤ (alloc rhs.size : RawMem α).capacity := by
      rw [capacity_alloc]
      omega
    obtain ⟨d, heq, hcapd, _, _, _⟩ :=
      uninitCopyN_spec rhs.size rhs.data 0 (alloc rhs.size) 0 hlive hcap
    refine ⟨⟨d, rhs.size⟩, ?_, rfl, ?_, ?_⟩
    · unfold vecCopyAssign
      rw [if_pos hgt]
      unfold vecCopyCtor
      simp only [heq, exbind_ok]
      rfl
    · intro hle
      omega
    · intro _
      rw [show (⟨d, rhs.size⟩ : VectorM α).data.capacity = d.capacity from rfl,
        hcapd, capacity_alloc]
  · have hle : rhs.size ≤ v.data.capacity := Nat.not_lt.mp hgt
    have hlivesrc : ∀ k, k < min v.size rhs.size →
        (valAt rhs.data (0 + k)).isSome = true := by
      intro k hk
      rw [Nat.zero_add]
      exact hr.2.1 k (by omega)
    have hlivedst : ∀ k, k < min v.size rhs.size →
        (valAt v.data (0 + k)).isSome = true := by
      intro k hk
      rw [Nat.zero_add]
      exact hv.2.1 k (by omega)
    obtain ⟨m1, heq1, hcap1, hvals1, hlow1, hhigh1⟩ :=
      copyAssignN_spec (min v.size rhs.size) rhs.data 0 v.data 0 hlivesrc hlivedst
    by_cases hbig : rhs.size > v.size
    · have hlive2 : ∀ k, k < rhs.size - v.size →
          (valAt rhs.data (v.size + k)).isSome = true := by
        intro k hk
        exact hr.2.1 (v.size + k) (by omega)
      have hcap2 : v.size + (rhs.size - v.size) ≤ m1.capacity := by
        rw [hcap1]
        omega
      obtain ⟨m2, heq2, hcap2b, _, _, _⟩ :=
        uninitCopyN_spec (rhs.size - v.size) rhs.data v.size m1 v.size hlive2 hcap2
      refine ⟨⟨m2, rhs.size⟩, ?_, rfl, ?_, ?_⟩
      · unfold vecCopyAssign
        rw [if_neg hgt]
        simp only [heq1, exbind_ok, if_pos hbig, heq2]
        rfl
      · intro _
        rw [show (⟨m2, rhs.size⟩ : VectorM α).data.capacity = m2.capacity from rfl,
          hcap2b, hcap1]
      · intro hlt
        omega
    · have hsm : rhs.size ≤ v.size := Nat.not_lt.mp hbig
      have hlive2 : ∀ k, k < v.size - rhs.size →
          (valAt m1 (rhs.size + k)).isSome = true := by
        intro k hk
        rw [valAt_congr (hhigh1 (rhs.size + k) (by omega))]
        exact hv.2.1 (rhs.size + k) (by omega)
      obtain ⟨m2, heq2, hcap2b, _, _, _⟩ :=
        destroyN_spec (v.size - rhs.size) m1 rhs.size hlive2
      refine ⟨⟨m2, rhs.size⟩, ?_, rfl, ?_, ?_⟩
      · unfold vecCopyAssign
        rw [if_neg hgt]
        simp only [heq1, exbind_ok, if_neg hbig, heq2]
        rfl
      · intro _
        rw [show (⟨m2, rhs.size⟩ : VectorM α).data.capacity = m2.capacity from rfl,
          hcap2b, hcap1]
      · intro hlt
        omega

/-- Witness for C10 at concrete inputs: assigning the two-element `c10b` into
`c10a` (capacity 3) reuses the storage and keeps capacity 3. -/
theorem C10_copy_assign_capacity_witness :
    (wfVec c10a ∧ wfVec c10b) ∧
    ∃ v2, vecCopyAssign c10a c10b = .ok v2 ∧ v2.size = c10b.size ∧
      (c10b.size ≤ c10a.data.capacity → v2.data.capacity = c10a.data.capacity) ∧
      (c10a.data.capacity < c10b.size → v2.data.capacity = c10b.size) :=
  ⟨⟨by decide, by decide⟩, C10_copy_assign_capacity c10a c10b (by decide) (by decide)⟩
